import Mathlib

/-!
The page storage and routing of `go___todo`.

A shallow embedding of `main.go` (a small note-taking web service) and the
properties of its title validator, page store, lister and handlers.

Conventions of the embedding:

* A Go `string` is a `List Char` (`Str`): valid UTF-8 text, one `Char` per rune.
  Every byte test of the source compares against an ASCII character, and the
  bytes of a multi-byte UTF-8 sequence are never ASCII, so testing runes is the
  same as testing bytes.
* A Go `[]byte` is a `List UInt8`.
* `log.Printf` has no effect on a response or on the store and is left out.
-/

namespace GoTodo

/-- A Go string. -/
abbrev Str := List Char

/-- A Go byte slice. -/
abbrev Bytes := List UInt8

/-! ## Package `regexp`: a backtracking matcher with leftmost-first semantics -/

/-- Regular expression syntax trees, for the operators `validPath` is built from. -/
inductive Regex where
  | empty : Regex
  | beginText : Regex
  | endText : Regex
  | lit (c : Char) : Regex
  | cls (ranges : List (Char × Char)) : Regex
  | cat (a b : Regex) : Regex
  | alt (a b : Regex) : Regex
  | plus (a : Regex) : Regex
  | cap (i : Nat) (a : Regex) : Regex

/-- Capture slots: for each group the start and end offset of its match, if it took part. -/
abbrev Caps := List (Option (Nat × Nat))

/-- A continuation: the rest of the match, from an offset, the unread input and the slots. -/
abbrev Cont := Nat → Str → Caps → Option Caps

/-- Membership of a character in a class given by inclusive ranges. -/
def inClass (ranges : List (Char × Char)) (c : Char) : Bool :=
  ranges.any fun r => decide (r.1.toNat ≤ c.toNat) && decide (c.toNat ≤ r.2.toNat)

/-- Greedy one-or-more repetition of `step`: after each iteration, first try another one,
then the continuation. The fuel bounds the number of iterations. -/
def runPlus (step : Nat → Str → Caps → Cont → Option Caps) :
    Nat → Nat → Str → Caps → Cont → Option Caps
  | 0, _, _, _, _ => none
  | fuel + 1, pos, s, caps, k =>
    step pos s caps fun pos1 s1 caps1 =>
      match runPlus step fuel pos1 s1 caps1 k with
      | some r => some r
      | none => k pos1 s1 caps1

/-- Match `re` at offset `pos` with `s` left to read, then continue with `k`.
Alternatives are tried left to right and repetition is greedy (leftmost-first). -/
def Regex.run : Regex → Nat → Str → Caps → Cont → Option Caps
  | .empty, pos, s, caps, k => k pos s caps
  | .beginText, pos, s, caps, k => if pos = 0 then k pos s caps else none
  | .endText, pos, s, caps, k =>
    match s with
    | [] => k pos [] caps
    | _ :: _ => none
  | .lit c, pos, s, caps, k =>
    match s with
    | x :: s1 => if x = c then k (pos + 1) s1 caps else none
    | [] => none
  | .cls ranges, pos, s, caps, k =>
    match s with
    | x :: s1 => if inClass ranges x then k (pos + 1) s1 caps else none
    | [] => none
  | .cat a b, pos, s, caps, k => a.run pos s caps fun pos1 s1 caps1 => b.run pos1 s1 caps1 k
  | .alt a b, pos, s, caps, k =>
    match a.run pos s caps k with
    | some r => some r
    | none => b.run pos s caps k
  | .plus a, pos, s, caps, k => runPlus a.run (s.length + 1) pos s caps k
  | .cap i a, pos, s, caps, k =>
    a.run pos s caps fun pos1 s1 caps1 => k pos1 s1 (caps1.set i (some (pos, pos1)))

/-- A literal string as a regular expression. -/
def Regex.str : Str → Regex
  | [] => .empty
  | c :: cs => .cat (.lit c) (Regex.str cs)

/-- Unanchored search: the leftmost start offset at which `re` matches. -/
def Regex.search (re : Regex) (ngroups : Nat) : Nat → Str → Option Caps
  | pos, [] =>
    re.run pos [] (List.replicate (ngroups + 1) none)
      (fun pos1 _ caps => some (caps.set 0 (some (pos, pos1))))
  | pos, x :: s1 =>
    match re.run pos (x :: s1) (List.replicate (ngroups + 1) none)
        (fun pos1 _ caps => some (caps.set 0 (some (pos, pos1)))) with
    | some r => some r
    | none => Regex.search re ngroups (pos + 1) s1

/-- The text between two offsets of the input (`input[a:b]`). -/
def slice (input : Str) (a b : Nat) : Str := (input.drop a).take (b - a)

/-- Function `(*Regexp).FindStringSubmatch`: the leftmost match and the text of each group
(empty for a group that took no part), or `none` (Go: `nil`) when nothing matches. -/
def Regex.FindStringSubmatch (re : Regex) (ngroups : Nat) (input : Str) : Option (List Str) :=
  match re.search ngroups 0 input with
  | none => none
  | some caps =>
    some (caps.map fun slot =>
      match slot with
      | some (a, b) => slice input a b
      | none => [])

/-! ## Package `path/filepath` (Unix) -/

/-- The `..` case of `Clean` when it can backtrack: after `out.w--` the byte at the new
`out.w` is `x`; keep dropping bytes until that byte is a slash or `out.w` reaches `dotdot`.
The buffer is kept reversed, so its head is the byte before `out.w`. -/
def cleanBacktrack (dotdot : Nat) : Char → Str → Str
  | x, out =>
    match out with
    | [] => []
    | y :: out1 =>
      if dotdot < (y :: out1).length ∧ x ≠ '/' then cleanBacktrack dotdot y out1 else y :: out1

/-- The main loop of `filepath.Clean`. `rest` is `path[r:]`, `out` is the output buffer
(reversed), `dotdot` the offset in the output where `..` must stop. Every iteration reads
at least one byte, so `rest.length` iterations are enough; `none` reports exhausted fuel. -/
def cleanLoop (rooted : Bool) : Nat → Str → Str → Nat → Option Str
  | _, [], out, _ => some out
  | 0, _ :: _, _, _ => none
  | fuel + 1, c :: tl, out, dotdot =>
    if c = '/' then
      -- empty path element
      cleanLoop rooted fuel tl out dotdot
    else if c = '.' ∧ (tl = [] ∨ tl.head? = some '/') then
      -- . element
      cleanLoop rooted fuel tl out dotdot
    else if c = '.' ∧ tl.head? = some '.' ∧ (tl.tail = [] ∨ tl.tail.head? = some '/') then
      -- .. element: remove to last slash
      if dotdot < out.length then
        match out with
        | [] => cleanLoop rooted fuel tl.tail out dotdot
        | x :: out1 => cleanLoop rooted fuel tl.tail (cleanBacktrack dotdot x out1) dotdot
      else if rooted = false then
        let out1 := if 0 < out.length then '/' :: out else out
        let out2 := '.' :: '.' :: out1
        cleanLoop rooted fuel tl.tail out2 out2.length
      else
        cleanLoop rooted fuel tl.tail out dotdot
    else
      -- real path element: add slash if needed, then copy the element
      let out1 :=
        if (rooted = true ∧ out.length ≠ 1) ∨ (rooted = false ∧ out.length ≠ 0) then '/' :: out
        else out
      let elem := (c :: tl).takeWhile (fun x => decide (x ≠ '/'))
      cleanLoop rooted fuel ((c :: tl).dropWhile (fun x => decide (x ≠ '/')))
        (elem.reverse ++ out1) dotdot

/-- Function `filepath.Clean`: the shortest path name equivalent to `path` by lexical processing. -/
def Clean (path : Str) : Str :=
  if path = [] then ".".toList
  else
    let rooted := decide (path.head? = some '/')
    let start := if rooted then (['/'], path.tail, 1) else ([], path, 0)
    match cleanLoop rooted start.2.1.length start.2.1 start.1 start.2.2 with
    | none => path
    | some out => if out.length = 0 then ".".toList else out.reverse

/-- Function `strings.Join`. -/
def stringsJoin (elems : List Str) (sep : Str) : Str := sep.intercalate elems

/-- Function `filepath.Join`: joins the elements from the first non-empty one on with the
separator and cleans the result; empty when every element is empty. -/
def Join : List Str → Str
  | [] => []
  | e :: es => if e ≠ [] then Clean (stringsJoin (e :: es) "/".toList) else Join es

/-- Function `filepath.Ext`, scanning backwards from the end of the path: `rev` is the part of the
path not yet seen, reversed, and `acc` the bytes already passed. -/
def extScan : Str → Str → Str
  | [], _ => []
  | c :: rev, acc =>
    if c = '/' then [] else if c = '.' then c :: acc else extScan rev (c :: acc)

/-- Function `filepath.Ext`: the suffix beginning at the final dot of the final element, or empty. -/
def Ext (path : Str) : Str := extScan path.reverse []

/-- Function `filepath.Dir`: all but the last element of the path, cleaned. -/
def Dir (path : Str) : Str :=
  Clean (path.reverse.dropWhile (fun x => decide (x ≠ '/'))).reverse

/-! ## Package `strings` and `unicode` -/

/-- Function `strings.HasSuffix`. -/
def HasSuffix (s suffix : Str) : Bool := suffix.isSuffixOf s

/-- Function `strings.TrimSuffix`. -/
def TrimSuffix (s suffix : Str) : Str :=
  if HasSuffix s suffix then s.take (s.length - suffix.length) else s

/-- Function `unicode.IsSpace`: the Latin-1 spaces, otherwise the `White_Space` property. -/
def IsSpace (r : Char) : Bool :=
  let n := r.toNat
  if n ≤ 0xFF then
    n = 0x09 ∨ n = 0x0A ∨ n = 0x0B ∨ n = 0x0C ∨ n = 0x0D ∨ n = 0x20 ∨ n = 0x85 ∨ n = 0xA0
  else
    n = 0x1680 ∨ (0x2000 ≤ n ∧ n ≤ 0x200A) ∨ n = 0x2028 ∨ n = 0x2029 ∨ n = 0x202F ∨
      n = 0x205F ∨ n = 0x3000

/-- Function `strings.TrimSpace`: leading and trailing white space removed
(`TrimRightFunc(TrimLeftFunc(s, unicode.IsSpace), unicode.IsSpace)`). -/
def TrimSpace (s : Str) : Str := ((s.dropWhile IsSpace).reverse.dropWhile IsSpace).reverse

/-! ## Package `os` over a model file system

The file system is a map from cleaned path names to nodes. The working directory `.` and
the root `/` are always directories. Permission bits, links and special files are not part
of the model. Every call is recorded in the world, so that the store accesses of a handler
can be read off its result. -/

/-- A file system node. -/
inductive Node where
  | dir : Node
  | file (data : Bytes) : Node
deriving DecidableEq

/-- The file system: the node at each cleaned path name, if any. -/
abbrev FS := Str → Option Node

/-- The causes of a failed file system call (`ENOENT`, `EISDIR`, `ENOTDIR`, `EEXIST`). -/
inductive PathError where
  | notExist : PathError
  | isDir : PathError
  | notDir : PathError
  | exist : PathError
deriving DecidableEq

/-- A call into the store. -/
inductive StoreOp where
  | mkdirAll (path : Str) : StoreOp
  | writeFile (name : Str) (data : Bytes) : StoreOp
  | readFile (name : Str) : StoreOp
  | readDir (name : Str) : StoreOp
deriving DecidableEq

/-- The world a handler runs in: the file system and the store calls made so far. -/
structure World where
  fs : FS
  ops : List StoreOp

/-- The node a path name resolves to (`os.Stat`). -/
def stat (fs : FS) (name : Str) : Option Node :=
  let key := Clean name
  if key = ".".toList ∨ key = "/".toList then some Node.dir else fs key

/-- The file system with the node at `key` replaced. -/
def FS.set (fs : FS) (key : Str) (n : Node) : FS := fun k => if k = key then some n else fs k

/-- Function `os.Mkdir`: creates one directory; its parent must be a directory and the name free. -/
def Mkdir (fs : FS) (name : Str) : Except PathError FS :=
  match stat fs name with
  | some _ => .error .exist
  | none =>
    match stat fs (Dir (Clean name)) with
    | some .dir => .ok (fs.set (Clean name) .dir)
    | some (.file _) => .error .notDir
    | none => .error .notExist

/-- Function `os.MkdirAll` on the file system: succeeds at once on a directory, fails on a file,
otherwise creates the parent `path[:j-1]` first and then the directory itself. The
recursion is on ever shorter paths, so `path.length + 1` levels are enough. -/
def mkdirAllFS : Nat → FS → Str → Except PathError FS
  | 0, _, _ => .error .notExist
  | fuel + 1, fs, path =>
    match stat fs path with
    | some .dir => .ok fs
    | some (.file _) => .error .notDir
    | none =>
      -- skip the trailing separators, then scan backward over the last element
      let upToI := path.reverse.dropWhile (fun x => decide (x = '/'))
      let upToJ := upToI.dropWhile (fun x => decide (x ≠ '/'))
      let parent : Except PathError FS :=
        if 1 < upToJ.length then mkdirAllFS fuel fs upToJ.tail.reverse else .ok fs
      match parent with
      | .error e => .error e
      | .ok fs1 =>
        match Mkdir fs1 path with
        | .ok fs2 => .ok fs2
        | .error e =>
          match stat fs1 path with
          | some .dir => .ok fs1
          | _ => .error e

/-- Function `os.MkdirAll`. -/
def MkdirAll (path : Str) (w : World) : Except PathError Unit × World :=
  match mkdirAllFS (path.length + 1) w.fs path with
  | .ok fs1 => (.ok (), ⟨fs1, w.ops ++ [.mkdirAll path]⟩)
  | .error e => (.error e, ⟨w.fs, w.ops ++ [.mkdirAll path]⟩)

/-- Function `os.WriteFile`: creates or truncates the named file and writes `data` to it. It fails
on a directory and when the parent is not a directory. -/
def WriteFile (name : Str) (data : Bytes) (w : World) : Except PathError Unit × World :=
  let w1 : World := ⟨w.fs, w.ops ++ [.writeFile name data]⟩
  match stat w.fs name with
  | some .dir => (.error .isDir, w1)
  | _ =>
    match stat w.fs (Dir (Clean name)) with
    | some .dir => (.ok (), ⟨w.fs.set (Clean name) (.file data), w1.ops⟩)
    | some (.file _) => (.error .notDir, w1)
    | none => (.error .notExist, w1)

/-- Function `os.ReadFile`: the contents of the named file. It fails when there is no such file and
on a directory. -/
def ReadFile (name : Str) (w : World) : Except PathError Bytes × World :=
  let w1 : World := ⟨w.fs, w.ops ++ [.readFile name]⟩
  match stat w.fs name with
  | some (.file data) => (.ok data, w1)
  | some .dir => (.error .isDir, w1)
  | none => (.error .notExist, w1)

/-- A directory entry (`os.DirEntry`): its name and whether it is a directory. -/
structure DirEntry where
  Name : Str
  IsDir : Bool
deriving DecidableEq

/-! ## `main.go` -/

/-- Source: `type Page struct`. -/
structure Page where
  Title : Str
  Body : Bytes
deriving DecidableEq

/-- Source: `type ListPageInfo struct`. -/
structure ListPageInfo where
  PageTitle : Str
  Pages : List Page
deriving DecidableEq

/-- Source: `const NotePath`. -/
def NotePath : Str := "./My-Notes/".toList

/-- Source: `validPath = regexp.MustCompile("^/(edit|view)/([a-zA-Z0-9]+)$")`, as the
syntax tree of that pattern, with its two capture groups. -/
def validPath : Regex :=
  .cat .beginText
    (.cat (.lit '/')
      (.cat (.cap 1 (.alt (Regex.str "edit".toList) (Regex.str "view".toList)))
        (.cat (.lit '/')
          (.cat (.cap 2 (.plus (.cls [('a', 'z'), ('A', 'Z'), ('0', '9')])))
            .endText))))

/-- The errors the page store returns: `fmt.Errorf` around the cause of a failed
`os.MkdirAll` or `os.ReadFile`, or the cause of a failed `os.WriteFile` as it is. -/
inductive StoreError where
  | createDir (path : Str) (cause : PathError) : StoreError
  | write (cause : PathError) : StoreError
  | getPage (title : Str) (cause : PathError) : StoreError
deriving DecidableEq

/-- The storage path both `save` and `loadPage` compute for a title:
`filepath.Join(NotePath, title+".txt")`. -/
def storagePath (title : Str) : Str := Join [NotePath, title ++ ".txt".toList]

/-- Source: `func (p *Page) save() error`. -/
def Page.save (p : Page) (w : World) : Except StoreError Unit × World :=
  match MkdirAll NotePath w with
  | (.error err, w1) => (.error (.createDir NotePath err), w1)
  | (.ok _, w1) =>
    let filepath := Join [NotePath, p.Title ++ ".txt".toList]
    match WriteFile filepath p.Body w1 with
    | (.error err, w2) => (.error (.write err), w2)
    | (.ok _, w2) => (.ok (), w2)

/-- Source: `func loadPage(title string) (*Page, error)`. -/
def loadPage (title : Str) (w : World) : Except StoreError Page × World :=
  let filename := Join [NotePath, title ++ ".txt".toList]
  match ReadFile filename w with
  | (.error err, w1) => (.error (.getPage title err), w1)
  | (.ok body, w1) => (.ok ⟨title, body⟩, w1)

/-- The data handed to a template (`interface{}`). -/
inductive TemplateData where
  | null : TemplateData
  | page (p : Page) : TemplateData
  | info (i : ListPageInfo) : TemplateData
deriving DecidableEq

/-- The parsed templates (the global `templates`): what `ExecuteTemplate` writes for a
template name and its data, or `none` when execution fails. -/
abbrev Templates := Str → TemplateData → Option Bytes

/-- What a handler writes to its `http.ResponseWriter`. A redirect records the arguments
of the `http.Redirect` call, an error those of the `http.Error` call. -/
inductive Response where
  | html (body : Bytes) : Response
  | error (msg : Str) (code : Nat) : Response
  | redirect (url : Str) (code : Nat) : Response
  | nothing : Response
deriving DecidableEq

/-- The status line constants of `net/http` used by the handlers. -/
def StatusFound : Nat := 302

/-- Constant `http.StatusBadRequest`. -/
def StatusBadRequest : Nat := 400

/-- Constant `http.StatusNotFound`. -/
def StatusNotFound : Nat := 404

/-- Constant `http.StatusInternalServerError`. -/
def StatusInternalServerError : Nat := 500

/-- Function `http.NotFound`: replies with a 404. -/
def NotFound : Response := .error "404 page not found".toList StatusNotFound

/-- The parts of an `*http.Request` the handlers read. -/
structure Request where
  Method : Str
  Path : Str
  Form : List (Str × Str)
deriving DecidableEq

/-- Function `(*Request).FormValue`: the first value of the named field, empty when absent. -/
def Request.FormValue (r : Request) (key : Str) : Str :=
  match r.Form.find? (fun kv => decide (kv.1 = key)) with
  | some kv => kv.2
  | none => []

/-- The conversion `[]byte(s)`: the UTF-8 encoding of the string. -/
def toBytes (s : Str) : Bytes := s.flatMap String.utf8EncodeChar

/-- A handler with a title, the argument type of `makeHandler`. -/
abbrev TitleHandler := Request → Str → World → Response × World

/-- A handler (`http.HandlerFunc`). -/
abbrev Handler := Request → World → Response × World

/-- Source: `func renderTemplate`. -/
def renderTemplate (templates : Templates) (name : Str) (data : TemplateData) : Response :=
  match templates (name ++ ".html".toList) data with
  | none => .error "Internal Server Error".toList StatusInternalServerError
  | some buf => .html buf

/-- Source: `func makeHandler`. -/
def makeHandler (fn : TitleHandler) : Handler := fun r w =>
  match validPath.FindStringSubmatch 2 r.Path with
  | none => (NotFound, w)
  | some ms => fn r (ms.getD 2 []) w

/-- Source: `func addHandler`. -/
def addHandler (templates : Templates) : Handler := fun r w =>
  if r.Method = "GET".toList then
    (renderTemplate templates "add".toList .null, w)
  else if r.Method = "POST".toList then
    let title := TrimSpace (r.FormValue "title".toList)
    let body := r.FormValue "body".toList
    if title = [] then
      (.error "Title is required".toList StatusBadRequest, w)
    else
      let page : Page := ⟨title, toBytes body⟩
      match page.save w with
      | (.error _, w1) => (.error "Internal Server Error".toList StatusInternalServerError, w1)
      | (.ok _, w1) => (.redirect ("/view/".toList ++ title) StatusFound, w1)
  else
    (.nothing, w)

/-- Source: `func viewHandler`. -/
def viewHandler (templates : Templates) : TitleHandler := fun _ title w =>
  match loadPage title w with
  | (.error _, w1) => (.redirect ("/edit/".toList ++ title) StatusFound, w1)
  | (.ok page, w1) => (renderTemplate templates "view".toList (.page page), w1)

/-- The loop of `listHandler` over the directory entries, appending one page per kept entry. -/
def listPages (files : List DirEntry) : List Page :=
  files.foldl
    (fun pages file =>
      if file.IsDir then pages
      else if ¬ HasSuffix file.Name ".txt".toList then pages
      else pages ++ [⟨TrimSuffix file.Name (Ext file.Name), []⟩])
    []

/-- Source: `func listHandler`. The result of `os.ReadDir(NotePath)` is an input: the
entries of the notes directory, or the cause of the failure. -/
def listHandler (templates : Templates) (readDir : Except PathError (List DirEntry)) :
    Handler := fun _ w =>
  let files : List DirEntry :=
    match readDir with
    | .error _ => []
    | .ok files => files
  let info : ListPageInfo := ⟨"List  Pages".toList, listPages files⟩
  (renderTemplate templates "list".toList (.info info), ⟨w.fs, w.ops ++ [.readDir NotePath]⟩)

/-- Source: `func saveHandler`. -/
def saveHandler : TitleHandler := fun r title w =>
  let body := r.FormValue "body".toList
  let page : Page := ⟨title, toBytes body⟩
  match page.save w with
  | (.error _, w1) => (.error "Internal Server Error".toList StatusInternalServerError, w1)
  | (.ok _, w1) => (.redirect ("/view/".toList ++ title) StatusFound, w1)

/-- Source: `func editHandler`. -/
def editHandler (templates : Templates) : TitleHandler := fun _ title w =>
  match loadPage title w with
  | (.error _, w1) => (renderTemplate templates "edit".toList (.page ⟨title, []⟩), w1)
  | (.ok page, w1) => (renderTemplate templates "edit".toList (.page page), w1)

/-- The handler `main` registers for the pattern `/view/`. -/
def viewRoute (templates : Templates) : Handler := makeHandler (viewHandler templates)

/-- The handler `main` registers for the pattern `/edit/`. -/
def editRoute (templates : Templates) : Handler := makeHandler (editHandler templates)

/-- The handler `main` registers for the pattern `/save/`. -/
def saveRoute : Handler := makeHandler saveHandler

/-- The file system with nothing in it. -/
def emptyFS : FS := fun _ => none

/-! ## Notions used in the statements -/

/-- The class of `validPath`: ASCII letters and digits. -/
def isAlnum (c : Char) : Bool := inClass [('a', 'z'), ('A', 'Z'), ('0', '9')] c

/-- The last two items of `validPath`: the title group and the end of the text. -/
def titleRe : Regex := .cat (.cap 2 (.plus (.cls [('a', 'z'), ('A', 'Z'), ('0', '9')]))) .endText

/-- A valid title: one or more ASCII letters or digits. -/
def validTitle (t : Str) : Prop := t ≠ [] ∧ ∀ c ∈ t, c.isAlphanum = true

/-- A real path element: not empty, no separator, neither `.` nor `..`. -/
def isElem (e : Str) : Prop := e ≠ [] ∧ '/' ∉ e ∧ e ≠ ['.'] ∧ e ≠ ['.', '.']

/-- The key of the notes directory in the file system. -/
def notesKey : Str := "My-Notes".toList

/-- The status code of a response (200 when the handler sets none). -/
def Response.status : Response → Nat
  | .html _ => 200
  | .error _ code => code
  | .redirect _ code => code
  | .nothing => 200

/-- A path lies under the notes directory when it starts with the name of that directory
and a separator. -/
def underNotes (path : Str) : Bool := "My-Notes/".toList.isPrefixOf path

/-- The page `listHandler` lists for a directory entry: none for a directory or a name
without the `.txt` suffix, otherwise a stub whose title is the name without its last four
bytes. -/
def stubOf (e : DirEntry) : Option Page :=
  if e.IsDir = false ∧ ".txt".toList <:+ e.Name then some ⟨e.Name.take (e.Name.length - 4), []⟩
  else none

/-! ## The validator: what `validPath` matches -/

theorem run_str_append (l : Str) : ∀ (pos : Nat) (t : Str) (caps : Caps) (k : Cont),
    (Regex.str l).run pos (l ++ t) caps k = k (pos + l.length) t caps := by
  induction l with
  | nil => intro pos t caps k; simp [Regex.str, Regex.run]
  | cons c cs ih =>
    intro pos t caps k
    simp only [Regex.str, Regex.run, List.cons_append, if_true, ih, List.length_cons]
    congr 1
    omega

/-- A literal matches only an input that starts with it. -/
theorem run_str_some (l : Str) : ∀ (pos : Nat) (s : Str) (caps : Caps) (k : Cont) (r : Caps),
    (Regex.str l).run pos s caps k = some r →
      ∃ t, s = l ++ t ∧ k (pos + l.length) t caps = some r := by
  induction l with
  | nil => intro pos s caps k r h; exact ⟨s, rfl, by simpa [Regex.str, Regex.run] using h⟩
  | cons c cs ih =>
    intro pos s caps k r h
    cases s with
    | nil => simp [Regex.str, Regex.run] at h
    | cons x s1 =>
      simp only [Regex.str, Regex.run] at h
      by_cases hx : x = c
      · rw [if_pos hx] at h
        obtain ⟨t, ht, hk⟩ := ih _ _ _ _ _ h
        refine ⟨t, by simp [hx, ht], ?_⟩
        rw [← hk, List.length_cons]
        congr 1
        omega
      · rw [if_neg hx] at h
        exact absurd h (by simp)

/-- A class on a non-empty input: one step of the matcher. -/
theorem run_cls_cons (R : List (Char × Char)) (pos : Nat) (x : Char) (s : Str) (caps : Caps)
    (k : Cont) :
    (Regex.cls R).run pos (x :: s) caps k = if inClass R x then k (pos + 1) s caps else none :=
  rfl

/-- The greedy repetition of a class, before a continuation that fails on unread input,
succeeds exactly on a non-empty input made of the class, with enough fuel for its length. -/
theorem runPlus_cls (R : List (Char × Char)) (k : Cont)
    (hk : ∀ p x s c, k p (x :: s) c = none) :
    ∀ (s : Str) (fuel pos : Nat) (caps : Caps), s.length ≤ fuel →
      runPlus (Regex.run (.cls R)) fuel pos s caps k =
        if s ≠ [] ∧ ∀ c ∈ s, inClass R c = true then k (pos + s.length) [] caps else none := by
  intro s
  induction s with
  | nil =>
    intro fuel pos caps _
    cases fuel <;> simp [runPlus, Regex.run]
  | cons x s1 ih =>
    intro fuel pos caps hf
    cases fuel with
    | zero => simp at hf
    | succ f =>
      have hf1 : s1.length ≤ f := by simpa using hf
      rw [runPlus, run_cls_cons]
      by_cases hx : inClass R x = true
      · rw [if_pos hx, ih f (pos + 1) caps hf1]
        cases s1 with
        | nil => simp [hx]
        | cons y s2 =>
          by_cases hall : ∀ c ∈ y :: s2, inClass R c = true
          · have e : pos + 1 + (y :: s2).length = pos + (x :: y :: s2).length := by
              simp only [List.length_cons]; omega
            have hall2 : ∀ c ∈ x :: y :: s2, inClass R c = true := by
              intro c hc
              rcases List.mem_cons.1 hc with h | h
              · exact h ▸ hx
              · exact hall c h
            rw [if_pos ⟨by simp, hall⟩, if_pos ⟨by simp, hall2⟩, e]
            cases k (pos + (x :: y :: s2).length) [] caps <;> simp [hk]
          · have hall2 : ¬ ∀ c ∈ x :: y :: s2, inClass R c = true := by
              intro h; exact hall fun c hc => h c (List.mem_cons_of_mem _ hc)
            rw [if_neg (fun h => hall h.2), if_neg (fun h => hall2 h.2)]
            simp [hk]
      · rw [if_neg hx, if_neg]
        intro h
        exact hx (h.2 x (List.mem_cons_self _ _))

/-- The title group followed by the end of the text matches exactly the non-empty inputs made
of letters and digits, and records the whole input as group 2. -/
theorem run_titleRe (pos : Nat) (s : Str) (caps : Caps) (k : Cont) :
    titleRe.run pos s caps k =
      if s ≠ [] ∧ ∀ c ∈ s, isAlnum c = true then
        k (pos + s.length) [] (caps.set 2 (some (pos, pos + s.length)))
      else none := by
  have e : titleRe.run pos s caps k =
      runPlus (Regex.run (.cls [('a', 'z'), ('A', 'Z'), ('0', '9')])) (s.length + 1) pos s caps
        (fun p1 s1 c1 => Regex.run .endText p1 s1 (c1.set 2 (some (pos, p1))) k) := rfl
  rw [e, runPlus_cls _ _ (fun _ _ _ _ => rfl) s _ pos caps (Nat.le_succ _)]
  rfl

/-- On a path that starts with `/edit/`, `validPath` is left with the title group at offset 6. -/
theorem run_validPath_edit (t : Str) (caps : Caps) (k : Cont) :
    validPath.run 0 ("/edit/".toList ++ t) caps k =
      titleRe.run 6 t (caps.set 1 (some (1, 5))) k := by
  have e : validPath.run 0 ("/edit/".toList ++ t) caps k =
      match titleRe.run 6 t (caps.set 1 (some (1, 5))) k with
      | some r => some r
      | none => none := rfl
  rw [e]
  cases titleRe.run 6 t (caps.set 1 (some (1, 5))) k <;> rfl

/-- On a path that starts with `/view/`, `validPath` is left with the title group at offset 6. -/
theorem run_validPath_view (t : Str) (caps : Caps) (k : Cont) :
    validPath.run 0 ("/view/".toList ++ t) caps k =
      titleRe.run 6 t (caps.set 1 (some (1, 5))) k := rfl

/-- Because of `^`, `validPath` matches at no offset but 0. -/
theorem run_validPath_pos (n : Nat) (s : Str) (caps : Caps) (k : Cont) :
    validPath.run (n + 1) s caps k = none := rfl

/-- A path `validPath` matches at offset 0 starts with `/edit/` or with `/view/`. -/
theorem run_validPath_some (s : Str) (caps : Caps) (k : Cont) (r : Caps)
    (h : validPath.run 0 s caps k = some r) :
    ∃ t, s = "/edit/".toList ++ t ∨ s = "/view/".toList ++ t := by
  have e : validPath.run 0 s caps k =
      Regex.run (.lit '/') 0 s caps fun p1 s1 c1 =>
        Regex.run (.alt (Regex.str "edit".toList) (Regex.str "view".toList)) p1 s1 c1
          fun p2 s2 c2 => Regex.run (.lit '/') p2 s2 (c2.set 1 (some (p1, p2)))
            fun p3 s3 c3 => titleRe.run p3 s3 c3 k := rfl
  rw [e] at h
  cases s with
  | nil => simp [Regex.run] at h
  | cons x s1 =>
    rw [Regex.run] at h
    by_cases hx : x = '/'
    · rw [if_pos hx] at h
      rw [Regex.run] at h
      have key : ∀ (l : Str) (r1 : Caps),
          (Regex.str l).run (0 + 1) s1 caps (fun p2 s2 c2 =>
            Regex.run (.lit '/') p2 s2 (c2.set 1 (some (0 + 1, p2)))
              fun p3 s3 c3 => titleRe.run p3 s3 c3 k) = some r1 →
            ∃ t, s1 = l ++ '/' :: t := by
        intro l r1 h1
        obtain ⟨t1, ht1, hk1⟩ := run_str_some l _ _ _ _ _ h1
        cases t1 with
        | nil => simp [Regex.run] at hk1
        | cons y t2 =>
          rw [Regex.run] at hk1
          by_cases hy : y = '/'
          · exact ⟨t2, by rw [ht1, hy]⟩
          · rw [if_neg hy] at hk1
            exact absurd hk1 (by simp)
      split at h
      · rename_i r1 h1
        obtain ⟨t, ht⟩ := key _ _ h1
        exact ⟨t, Or.inl (by rw [hx, ht]; rfl)⟩
      · obtain ⟨t, ht⟩ := key _ _ h
        exact ⟨t, Or.inr (by rw [hx, ht]; rfl)⟩
    · rw [if_neg hx] at h
      exact absurd h (by simp)

/-- The class of the pattern is the ASCII letters and digits. -/
theorem isAlnum_eq (c : Char) : isAlnum c = c.isAlphanum := by
  simp only [isAlnum, inClass, Char.isAlphanum, Char.isAlpha, Char.isUpper, Char.isLower,
    Char.isDigit, List.any_cons, List.any_nil, Bool.or_false, ge_iff_le, UInt32.le_def,
    BitVec.le_def]
  have h1 : ('a' : Char).toNat = 97 := rfl
  have h2 : ('z' : Char).toNat = 122 := rfl
  have h3 : ('A' : Char).toNat = 65 := rfl
  have h4 : ('Z' : Char).toNat = 90 := rfl
  have h5 : ('0' : Char).toNat = 48 := rfl
  have h6 : ('9' : Char).toNat = 57 := rfl
  simp only [h1, h2, h3, h4, h5, h6]
  have e : c.val.toBitVec.toNat = c.toNat := rfl
  have n1 : (97 : UInt32).toBitVec.toNat = 97 := rfl
  have n2 : (122 : UInt32).toBitVec.toNat = 122 := rfl
  have n3 : (65 : UInt32).toBitVec.toNat = 65 := rfl
  have n4 : (90 : UInt32).toBitVec.toNat = 90 := rfl
  have n5 : (48 : UInt32).toBitVec.toNat = 48 := rfl
  have n6 : (57 : UInt32).toBitVec.toNat = 57 := rfl
  simp only [e, n1, n2, n3, n4, n5, n6]
  cases decide (97 ≤ c.toNat) <;> cases decide (c.toNat ≤ 122) <;>
    cases decide (65 ≤ c.toNat) <;> cases decide (c.toNat ≤ 90) <;>
    cases decide (48 ≤ c.toNat) <;> cases decide (c.toNat ≤ 57) <;> rfl

/-- The search of `validPath` from a later offset finds nothing. -/
theorem search_validPath_pos (s : Str) : ∀ n : Nat, validPath.search 2 (n + 1) s = none := by
  induction s with
  | nil => intro n; rfl
  | cons x s1 ih =>
    intro n
    rw [Regex.search, run_validPath_pos]
    exact ih (n + 1)

/-- The search of `validPath` is its match at offset 0. -/
theorem search_validPath (p : Str) :
    validPath.search 2 0 p =
      validPath.run 0 p [none, none, none] (fun pos1 _ caps => some (caps.set 0 (some (0, pos1)))) := by
  have e : List.replicate (2 + 1) (none : Option (Nat × Nat)) = [none, none, none] := rfl
  cases p with
  | nil => rw [Regex.search, e]
  | cons x s1 =>
    rw [Regex.search, e]
    cases h : validPath.run 0 (x :: s1) [none, none, none]
        (fun pos1 _ caps => some (caps.set 0 (some (0, pos1)))) with
    | some r => rfl
    | none => exact search_validPath_pos s1 0

/-- The slice from 0 to the length is the whole input. -/
theorem slice_append_left (l t : Str) : slice (l ++ t) 0 (l.length + t.length) = l ++ t := by
  simp [slice, ← List.length_append]

/-- The slice after a first part is the second part. -/
theorem slice_append_right (l t : Str) :
    slice (l ++ t) l.length (l.length + t.length) = t := by
  simp [slice]

/-- What `FindStringSubmatch` returns on a path with an accepted action and a valid title. -/
theorem find_validPath_edit (t : Str) (ht : validTitle t) :
    validPath.FindStringSubmatch 2 ("/edit/".toList ++ t) =
      some ["/edit/".toList ++ t, "edit".toList, t] := by
  have hc : t ≠ [] ∧ ∀ c ∈ t, isAlnum c = true :=
    ⟨ht.1, fun c hc => (isAlnum_eq c).trans (ht.2 c hc)⟩
  rw [Regex.FindStringSubmatch, search_validPath, run_validPath_edit, run_titleRe, if_pos hc]
  have e1 := slice_append_left "/edit/".toList t
  have e2 := slice_append_right "/edit/".toList t
  simp only [List.set, List.map, Option.some.injEq, List.cons.injEq, and_true]
  exact ⟨e1, rfl, e2⟩

/-- What `FindStringSubmatch` returns on `/view/` followed by a valid title. -/
theorem find_validPath_view (t : Str) (ht : validTitle t) :
    validPath.FindStringSubmatch 2 ("/view/".toList ++ t) =
      some ["/view/".toList ++ t, "view".toList, t] := by
  have hc : t ≠ [] ∧ ∀ c ∈ t, isAlnum c = true :=
    ⟨ht.1, fun c hc => (isAlnum_eq c).trans (ht.2 c hc)⟩
  rw [Regex.FindStringSubmatch, search_validPath, run_validPath_view, run_titleRe, if_pos hc]
  have e1 := slice_append_left "/view/".toList t
  have e2 := slice_append_right "/view/".toList t
  simp only [List.set, List.map, Option.some.injEq, List.cons.injEq, and_true]
  exact ⟨e1, rfl, e2⟩

/-- A path that `validPath` matches is an accepted action followed by a valid title. -/
theorem find_validPath_some (p : Str) (ms : List Str)
    (h : validPath.FindStringSubmatch 2 p = some ms) :
    ∃ t, validTitle t ∧ (p = "/edit/".toList ++ t ∨ p = "/view/".toList ++ t) := by
  rw [Regex.FindStringSubmatch, search_validPath] at h
  cases hr : validPath.run 0 p [none, none, none]
      (fun pos1 _ caps => some (caps.set 0 (some (0, pos1)))) with
  | none => rw [hr] at h; exact absurd h (by simp)
  | some r =>
    obtain ⟨t, ht⟩ := run_validPath_some p _ _ r hr
    have hv : validTitle t := by
      have hr2 : titleRe.run 6 t (List.set [none, none, none] 1 (some (1, 5)))
          (fun pos1 _ caps => some (caps.set 0 (some (0, pos1)))) = some r := by
        rcases ht with ht | ht
        · rw [← run_validPath_edit, ← ht]; exact hr
        · rw [← run_validPath_view, ← ht]; exact hr
      rw [run_titleRe] at hr2
      by_cases hc : t ≠ [] ∧ ∀ c ∈ t, isAlnum c = true
      · exact ⟨hc.1, fun c hm => (isAlnum_eq c).symm.trans (hc.2 c hm)⟩
      · rw [if_neg hc] at hr2
        exact absurd hr2 (by simp)
    exact ⟨t, hv, ht⟩

/-! ## Storage paths: `filepath.Clean` on the paths of the store -/

theorem takeWhile_noSlash (e : Str) (h : '/' ∉ e) :
    e.takeWhile (fun x => decide (x ≠ '/')) = e := by
  rw [List.takeWhile_eq_self_iff]
  intro x hx
  simp only [ne_eq, decide_not, Bool.not_eq_true', decide_eq_false_iff_not]
  intro hxe
  exact h (hxe ▸ hx)

/-- After copying an element without separator nothing is left to read. -/
theorem dropWhile_noSlash (e : Str) (h : '/' ∉ e) :
    e.dropWhile (fun x => decide (x ≠ '/')) = [] := by
  rw [List.dropWhile_eq_nil_iff]
  intro x hx
  simp only [ne_eq, decide_not, Bool.not_eq_true', decide_eq_false_iff_not]
  intro hxe
  exact h (hxe ▸ hx)

/-- One iteration of the loop of `Clean` on a last, real path element copies it. -/
theorem cleanLoop_elem (rooted : Bool) (fuel : Nat) (e out : Str) (dotdot : Nat)
    (he : isElem e) :
    cleanLoop rooted (fuel + 1) e out dotdot =
      some (e.reverse ++
        (if (rooted = true ∧ out.length ≠ 1) ∨ (rooted = false ∧ out.length ≠ 0) then '/' :: out
         else out)) := by
  obtain ⟨hne, hs, h1, h2⟩ := he
  cases e with
  | nil => exact absurd rfl hne
  | cons c tl =>
    have hc : c ≠ '/' := fun h => hs (h ▸ List.mem_cons_self _ _)
    have htl : '/' ∉ tl := fun h => hs (List.mem_cons_of_mem _ h)
    have c2 : ¬ (c = '.' ∧ (tl = [] ∨ tl.head? = some '/')) := by
      rintro ⟨hd, h | h⟩
      · exact h1 (by rw [hd, h])
      · cases tl with
        | nil => simp at h
        | cons y tl2 =>
          simp only [List.head?_cons, Option.some.injEq] at h
          exact htl (h ▸ List.mem_cons_self _ _)
    have c3 : ¬ (c = '.' ∧ tl.head? = some '.' ∧ (tl.tail = [] ∨ tl.tail.head? = some '/')) := by
      rintro ⟨hd, hh, h⟩
      cases tl with
      | nil => simp at hh
      | cons y tl2 =>
        simp only [List.head?_cons, Option.some.injEq] at hh
        rcases h with h | h
        · simp only [List.tail_cons] at h
          exact h2 (by rw [hd, hh, h])
        · cases tl2 with
          | nil => simp at h
          | cons z tl3 =>
            simp only [List.tail_cons, List.head?_cons, Option.some.injEq] at h
            exact htl (h ▸ List.mem_cons_of_mem _ (List.mem_cons_self _ _))
    simp only [cleanLoop, if_neg hc, if_neg c2, if_neg c3, takeWhile_noSlash _ hs,
      dropWhile_noSlash _ hs]

/-- A title without separator, followed by `.txt`, is a real path element. -/
theorem isElem_txt (t : Str) (h : '/' ∉ t) : isElem (t ++ ".txt".toList) := by
  refine ⟨by simp, ?_, ?_, ?_⟩
  · intro hm
    rcases List.mem_append.1 hm with hm | hm
    · exact h hm
    · revert hm; decide
  · intro he
    have := congrArg List.length he
    simp at this
  · intro he
    have := congrArg List.length he
    simp at this

/-- The iterations of `Clean` over the joined notes directory, before the last element. -/
theorem cleanLoop_notes (fuel : Nat) (e : Str) :
    cleanLoop false (fuel + 6) ("./My-Notes//".toList ++ e) [] 0 =
      cleanLoop false (fuel + 1) e "My-Notes".toList.reverse 0 := rfl

/-- The iterations of `Clean` over the cleaned notes directory, before the last element. -/
theorem cleanLoop_notes2 (fuel : Nat) (e : Str) :
    cleanLoop false (fuel + 3) ("My-Notes/".toList ++ e) [] 0 =
      cleanLoop false (fuel + 1) e "My-Notes".toList.reverse 0 := rfl

/-- Cleaning the joined path of a real element in the notes directory. -/
theorem Clean_notes (e : Str) (he : isElem e) :
    Clean ("./My-Notes//".toList ++ e) = "My-Notes/".toList ++ e := by
  have hfuel : ("./My-Notes//".toList ++ e).length = (e.length + 6) + 6 := by
    simp [List.length_append]
  have hne : "./My-Notes//".toList ++ e ≠ [] := by simp
  have hh : decide (("./My-Notes//".toList ++ e).head? = some '/') = false := by
    simp
  simp only [Clean, if_neg hne, hh, Bool.false_eq_true, if_false, hfuel, cleanLoop_notes,
    cleanLoop_elem _ _ _ _ _ he]
  simp

/-- A real element in the notes directory is a clean path. -/
theorem Clean_notes2 (e : Str) (he : isElem e) :
    Clean ("My-Notes/".toList ++ e) = "My-Notes/".toList ++ e := by
  have hfuel : ("My-Notes/".toList ++ e).length = (e.length + 6) + 3 := by
    simp [List.length_append]
  have hne : "My-Notes/".toList ++ e ≠ [] := by simp
  have hh : decide (("My-Notes/".toList ++ e).head? = some '/') = false := by
    simp
  simp only [Clean, if_neg hne, hh, Bool.false_eq_true, if_false, hfuel, cleanLoop_notes2,
    cleanLoop_elem _ _ _ _ _ he]
  simp

/-- The storage path of a title without a separator is the file of that name, with the
extension, directly in the notes directory. -/
theorem storagePath_eq (t : Str) (h : '/' ∉ t) :
    storagePath t = "My-Notes/".toList ++ t ++ ".txt".toList := by
  have e : storagePath t = Clean ("./My-Notes//".toList ++ (t ++ ".txt".toList)) := by
    simp [storagePath, Join, NotePath, stringsJoin, List.intercalate]
  rw [e, Clean_notes _ (isElem_txt t h), List.append_assoc]

/-- The loop of `Clean` never runs out of fuel when it is given the length of the input. -/
theorem cleanLoop_isSome (rooted : Bool) : ∀ (fuel : Nat) (rest out : Str) (dotdot : Nat),
    rest.length ≤ fuel → (cleanLoop rooted fuel rest out dotdot).isSome = true := by
  intro fuel
  induction fuel with
  | zero =>
    intro rest out dotdot h
    cases rest with
    | nil => simp [cleanLoop]
    | cons c tl => simp at h
  | succ f ih =>
    intro rest out dotdot h
    cases rest with
    | nil => simp [cleanLoop]
    | cons c tl =>
      have h1 : tl.length ≤ f := by simpa using h
      have h2 : tl.tail.length ≤ f := by
        rw [List.length_tail]; omega
      have h3 : c ≠ '/' → ((c :: tl).dropWhile (fun x => decide (x ≠ '/'))).length ≤ f := by
        intro hc
        have hd : (c :: tl).dropWhile (fun x => decide (x ≠ '/')) =
            tl.dropWhile (fun x => decide (x ≠ '/')) := by
          rw [List.dropWhile_cons_of_pos]; simpa using hc
        rw [hd]
        exact le_trans (List.dropWhile_sublist _).length_le h1
      simp only [cleanLoop]
      split_ifs with a1
      all_goals first
        | exact ih _ _ _ h1
        | exact ih _ _ _ h2
        | exact ih _ _ _ (h3 a1)
        | (cases out with
           | nil => exact ih _ _ _ h2
           | cons x out1 => exact ih _ _ _ h2)

/-! ## The store -/

theorem Clean_NotePath : Clean NotePath = notesKey := by decide

/-- The node of the notes directory. -/
theorem stat_NotePath (fs : FS) : stat fs NotePath = fs notesKey := by
  simp only [stat, Clean_NotePath]
  rw [if_neg (by decide)]

/-- What `MkdirAll` does to the file system on the notes directory: nothing when it is a
directory, an error when it is a file, and its creation when it is absent. -/
theorem mkdirAllFS_NotePath (fs : FS) :
    mkdirAllFS (NotePath.length + 1) fs NotePath =
      match fs notesKey with
      | some .dir => .ok fs
      | some (.file _) => .error .notDir
      | none => .ok (fs.set notesKey .dir) := by
  have hlen : NotePath.length + 1 = 10 + 1 + 1 := by decide
  rw [hlen, mkdirAllFS, stat_NotePath]
  cases h : fs notesKey with
  | some n => cases n <;> rfl
  | none =>
    have hp : ((NotePath.reverse.dropWhile (fun x => decide (x = '/'))).dropWhile
        (fun x => decide (x ≠ '/'))) = "./".toList.reverse := by decide
    simp only [hp]
    have h1 : (1 < "./".toList.reverse.length) = True := by decide
    have h2 : "./".toList.reverse.tail.reverse = ".".toList := by decide
    have h3 : ∀ n, mkdirAllFS (n + 1) fs ".".toList = .ok fs := fun n => rfl
    simp only [h1, if_true, h2, h3]
    have h4 : Mkdir fs NotePath = .ok (fs.set notesKey .dir) := by
      simp only [Mkdir, stat_NotePath, h, Clean_NotePath]
      rfl
    simp only [h4]

/-- What `MkdirAll` returns on the notes directory. -/
theorem MkdirAll_NotePath (w : World) :
    MkdirAll NotePath w =
      match w.fs notesKey with
      | some .dir => (.ok (), ⟨w.fs, w.ops ++ [.mkdirAll NotePath]⟩)
      | some (.file _) => (.error .notDir, ⟨w.fs, w.ops ++ [.mkdirAll NotePath]⟩)
      | none => (.ok (), ⟨w.fs.set notesKey .dir, w.ops ++ [.mkdirAll NotePath]⟩) := by
  rw [MkdirAll, mkdirAllFS_NotePath]
  cases h : w.fs notesKey with
  | some n => cases n <;> rfl
  | none => rfl

/-- The file system after `MkdirAll NotePath` differs from the one before at most at the
key of the notes directory. -/
theorem MkdirAll_NotePath_fs (w : World) (k : Str) (hk : k ≠ notesKey) :
    (MkdirAll NotePath w).2.fs k = w.fs k := by
  rw [MkdirAll_NotePath]
  cases h : w.fs notesKey with
  | some n => cases n <;> rfl
  | none => simp [FS.set, hk]

/-- The file system after `WriteFile` differs from the one before at most at the key of
the file. -/
theorem WriteFile_fs (name : Str) (data : Bytes) (w : World) (k : Str) (hk : k ≠ Clean name) :
    (WriteFile name data w).2.fs k = w.fs k := by
  simp only [WriteFile]
  cases h1 : stat w.fs name with
  | some n =>
    cases n with
    | dir => rfl
    | file d =>
      cases h2 : stat w.fs (Dir (Clean name)) with
      | some n2 => cases n2 <;> simp [FS.set, hk]
      | none => rfl
  | none =>
    cases h2 : stat w.fs (Dir (Clean name)) with
    | some n2 => cases n2 <;> simp [FS.set, hk]
    | none => rfl

/-- A successful `WriteFile` leaves the data in the file of that name. -/
theorem WriteFile_ok (name : Str) (data : Bytes) (w : World)
    (h : (WriteFile name data w).1 = .ok ()) :
    stat (WriteFile name data w).2.fs name = some (.file data) := by
  simp only [WriteFile] at h ⊢
  have key : ∀ fs : FS, ¬ (Clean name = ".".toList ∨ Clean name = "/".toList) →
      stat (fs.set (Clean name) (.file data)) name = some (.file data) := by
    intro fs hn
    simp only [stat, if_neg hn, FS.set, if_true]
  have hroot : (Clean name = ".".toList ∨ Clean name = "/".toList) →
      stat w.fs name = some .dir := by
    intro hn
    simp only [stat, if_pos hn]
  cases h1 : stat w.fs name with
  | some n =>
    cases n with
    | dir => rw [h1] at h; simp at h
    | file d =>
      have hn : ¬ (Clean name = ".".toList ∨ Clean name = "/".toList) := by
        intro hn; rw [hroot hn] at h1; simp at h1
      rw [h1] at h
      simp only at h ⊢
      cases h2 : stat w.fs (Dir (Clean name)) with
      | some n2 =>
        cases n2 with
        | dir => exact key _ hn
        | file d2 => rw [h2] at h; simp at h
      | none => rw [h2] at h; simp at h
  | none =>
    have hn : ¬ (Clean name = ".".toList ∨ Clean name = "/".toList) := by
      intro hn; rw [hroot hn] at h1; simp at h1
    rw [h1] at h
    simp only at h ⊢
    cases h2 : stat w.fs (Dir (Clean name)) with
    | some n2 =>
      cases n2 with
      | dir => exact key _ hn
      | file d2 => rw [h2] at h; simp at h
    | none => rw [h2] at h; simp at h

/-- The file system after `save` differs from the one before at most at the keys of the
notes directory and of the storage path of the title. -/
theorem Page.save_fs (p : Page) (w : World) (k : Str) (h1 : k ≠ notesKey)
    (h2 : k ≠ Clean (storagePath p.Title)) : (p.save w).2.fs k = w.fs k := by
  simp only [Page.save]
  cases hm : MkdirAll NotePath w with
  | mk res w1 =>
    have hw1 : w1.fs k = w.fs k := by
      have := MkdirAll_NotePath_fs w k h1
      rw [hm] at this; exact this
    cases res with
    | error e => exact hw1
    | ok u =>
      simp only
      have hw2 := WriteFile_fs (Join [NotePath, p.Title ++ ".txt".toList]) p.Body w1 k h2
      cases hwf : WriteFile (Join [NotePath, p.Title ++ ".txt".toList]) p.Body w1 with
      | mk res2 w2 =>
        rw [hwf] at hw2
        cases res2 <;> exact hw2.trans hw1

/-- A successful `save` leaves the body in the file at the storage path of the title. -/
theorem Page.save_ok (p : Page) (w : World) (h : (p.save w).1 = .ok ()) :
    stat (p.save w).2.fs (storagePath p.Title) = some (.file p.Body) := by
  simp only [Page.save] at h ⊢
  cases hm : MkdirAll NotePath w with
  | mk res w1 =>
    rw [hm] at h
    cases res with
    | error e => simp at h
    | ok u =>
      simp only at h ⊢
      have hw := WriteFile_ok (Join [NotePath, p.Title ++ ".txt".toList]) p.Body w1
      cases hwf : WriteFile (Join [NotePath, p.Title ++ ".txt".toList]) p.Body w1 with
      | mk res2 w2 =>
        rw [hwf] at h hw
        cases res2 with
        | error e => simp at h
        | ok u2 => exact hw rfl

/-- What `loadPage` returns, from the node at the storage path of the title. -/
theorem loadPage_eq (title : Str) (w : World) :
    (loadPage title w).1 =
      match stat w.fs (storagePath title) with
      | some (.file data) => .ok ⟨title, data⟩
      | some .dir => .error (.getPage title .isDir)
      | none => .error (.getPage title .notExist) := by
  simp only [loadPage, ReadFile, storagePath]
  cases h : stat w.fs (Join [NotePath, title ++ ".txt".toList]) with
  | some n => cases n <;> rfl
  | none => rfl

/-- Function `loadPage` leaves the file system as it was. -/
theorem loadPage_fs (title : Str) (w : World) : (loadPage title w).2.fs = w.fs := by
  simp only [loadPage, ReadFile]
  cases h : stat w.fs (Join [NotePath, title ++ ".txt".toList]) with
  | some n => cases n <;> rfl
  | none => rfl

/-- A valid title has no separator. -/
theorem validTitle_noSlash (t : Str) (h : validTitle t) : '/' ∉ t := by
  intro hm
  have := h.2 _ hm
  revert this; decide

/-- A valid title has no dot. -/
theorem validTitle_noDot (t : Str) (h : validTitle t) : '.' ∉ t := by
  intro hm
  have := h.2 _ hm
  revert this; decide

/-- The paths `validPath` matches are exactly the accepted actions followed by a valid title. -/
theorem find_validPath_none (p : Str)
    (h : ¬ ∃ t, validTitle t ∧ (p = "/view/".toList ++ t ∨ p = "/edit/".toList ++ t)) :
    validPath.FindStringSubmatch 2 p = none := by
  cases hf : validPath.FindStringSubmatch 2 p with
  | none => rfl
  | some ms =>
    obtain ⟨t, hv, ht⟩ := find_validPath_some p ms hf
    exact absurd ⟨t, hv, ht.symm⟩ h

/-- A path `validPath` does not match is not an accepted action followed by a valid title. -/
theorem find_validPath_route (p : Str) (h : validPath.FindStringSubmatch 2 p = none) :
    ¬ ∃ t, validTitle t ∧ (p = "/view/".toList ++ t ∨ p = "/edit/".toList ++ t) := by
  rintro ⟨t, hv, ht | ht⟩
  · rw [ht, find_validPath_view t hv] at h; simp at h
  · rw [ht, find_validPath_edit t hv] at h; simp at h

/-- Scanning backwards over a last element without separator stops after the separator
before it. -/
theorem dropWhile_rev_noSlash (l e : Str) (h : '/' ∉ e) :
    ((l ++ '/' :: e).reverse.dropWhile (fun x => decide (x ≠ '/'))).reverse = l ++ ['/'] := by
  have hr : (l ++ '/' :: e).reverse = e.reverse ++ '/' :: l.reverse := by simp
  rw [hr, List.dropWhile_append_of_pos]
  · simp
  · intro a ha
    simp only [ne_eq, decide_not, Bool.not_eq_true', decide_eq_false_iff_not]
    intro hae
    exact h (hae ▸ List.mem_reverse.1 ha)

/-- The directory of a separator-free name in the notes directory is the notes directory. -/
theorem Dir_notes (e : Str) (h : '/' ∉ e) : Dir ("My-Notes/".toList ++ e) = notesKey := by
  have := dropWhile_rev_noSlash "My-Notes".toList e h
  have e1 : "My-Notes/".toList ++ e = "My-Notes".toList ++ '/' :: e := by simp
  rw [Dir, e1, this]
  decide

/-- The extension of a name that ends in `.txt` is `.txt`. -/
theorem Ext_txt (t : Str) : Ext (t ++ ".txt".toList) = ".txt".toList := by
  simp [Ext, extScan]

/-- Removing the last four bytes of a name that ends in `.txt` leaves what is before `.txt`. -/
theorem take_txt (t : Str) :
    (t ++ ".txt".toList).take ((t ++ ".txt".toList).length - 4) = t := by
  simp

/-- One iteration of the loop of `listHandler` appends the stub of the entry, if any. -/
theorem listPages_step (e : DirEntry) (pages : List Page) :
    (if e.IsDir then pages
      else if ¬ HasSuffix e.Name ".txt".toList then pages
      else pages ++ [⟨TrimSuffix e.Name (Ext e.Name), []⟩]) =
    pages ++ (stubOf e).toList := by
  unfold stubOf
  cases hd : e.IsDir with
  | true => simp
  | false =>
    by_cases hs : ".txt".toList <:+ e.Name
    · have hh : HasSuffix e.Name ".txt".toList = true := by
        simpa [HasSuffix] using hs
      obtain ⟨t, ht⟩ := hs
      simp only [Bool.false_eq_true, if_false, hh, not_true_eq_false, true_and]
      rw [if_pos ⟨t, ht⟩, ← ht, Ext_txt, TrimSuffix]
      have hh2 : HasSuffix (t ++ ".txt".toList) ".txt".toList = true := by rw [ht]; exact hh
      rw [if_pos hh2]
      have : (".txt".toList).length = 4 := rfl
      rw [this]
      rfl
    · have hh : ¬ HasSuffix e.Name ".txt".toList = true := by
        simpa [HasSuffix] using hs
      simp only [Bool.false_eq_true, if_false, hh, not_false_eq_true, if_true, true_and,
        if_neg hs, Option.toList, List.append_nil]

/-- The loop of `listHandler` appends the stubs of the entries, in order. -/
theorem foldl_listPages (files : List DirEntry) : ∀ acc : List Page,
    files.foldl
      (fun pages file =>
        if file.IsDir then pages
        else if ¬ HasSuffix file.Name ".txt".toList then pages
        else pages ++ [⟨TrimSuffix file.Name (Ext file.Name), []⟩]) acc =
    acc ++ files.filterMap stubOf := by
  induction files with
  | nil => intro acc; simp
  | cons e es ih =>
    intro acc
    rw [List.foldl_cons, listPages_step, ih]
    cases h : stubOf e <;> simp [List.filterMap_cons, h]

/-! ## The claims -/

/-- C1: the handler built by `makeHandler` calls `fn` exactly on the paths `/view/t` and
`/edit/t` with `t` one or more ASCII letters or digits, and then with the title `t`; on
every other path it answers 404 whatever `fn` is, and leaves the world, the record of
store calls included, as it was. -/
theorem makeHandler_dispatch (r : Request) (w : World) :
    (∀ (fn : TitleHandler) (t : Str), validTitle t →
        (r.Path = "/view/".toList ++ t ∨ r.Path = "/edit/".toList ++ t) →
        makeHandler fn r w = fn r t w) ∧
    ((¬ ∃ t, validTitle t ∧ (r.Path = "/view/".toList ++ t ∨ r.Path = "/edit/".toList ++ t)) →
        ∀ fn : TitleHandler, makeHandler fn r w = (NotFound, w)) := by
  constructor
  · intro fn t hv hp
    unfold makeHandler
    rcases hp with hp | hp
    · rw [hp, find_validPath_view t hv]; rfl
    · rw [hp, find_validPath_edit t hv]; rfl
  · intro h fn
    unfold makeHandler
    rw [find_validPath_none r.Path h]

/-- C1, on the examples of the specification, for the view handler: `/view/abc123` is
accepted with the title `abc123`, and `/view/ab-c`, `/view/ab c`, `/view/` and `/view/a/b`
are answered 404 with the world left as it was. -/
theorem makeHandler_dispatch_witness :
    makeHandler (viewHandler fun _ _ => none)
        ⟨"GET".toList, "/view/abc123".toList, []⟩ ⟨emptyFS, []⟩ =
      viewHandler (fun _ _ => none) ⟨"GET".toList, "/view/abc123".toList, []⟩
        "abc123".toList ⟨emptyFS, []⟩ ∧
    makeHandler (viewHandler fun _ _ => none)
        ⟨"GET".toList, "/view/ab-c".toList, []⟩ ⟨emptyFS, []⟩ = (NotFound, ⟨emptyFS, []⟩) ∧
    makeHandler (viewHandler fun _ _ => none)
        ⟨"GET".toList, "/view/ab c".toList, []⟩ ⟨emptyFS, []⟩ = (NotFound, ⟨emptyFS, []⟩) ∧
    makeHandler (viewHandler fun _ _ => none)
        ⟨"GET".toList, "/view/".toList, []⟩ ⟨emptyFS, []⟩ = (NotFound, ⟨emptyFS, []⟩) ∧
    makeHandler (viewHandler fun _ _ => none)
        ⟨"GET".toList, "/view/a/b".toList, []⟩ ⟨emptyFS, []⟩ = (NotFound, ⟨emptyFS, []⟩) :=
  ⟨(makeHandler_dispatch _ _).1 _ "abc123".toList ⟨by decide, by decide⟩ (Or.inl rfl),
   (makeHandler_dispatch _ _).2 (find_validPath_route _ (by decide)) _,
   (makeHandler_dispatch _ _).2 (find_validPath_route _ (by decide)) _,
   (makeHandler_dispatch _ _).2 (find_validPath_route _ (by decide)) _,
   (makeHandler_dispatch _ _).2 (find_validPath_route _ (by decide)) _⟩

/-- C2: the title `validPath` extracts from an accepted path has no separator and no dot,
and its storage path is the file `My-Notes/<title>.txt`, whose directory is the notes
directory: a direct child of the notes root. -/
theorem validPath_storagePath (p : Str) (ms : List Str)
    (h : validPath.FindStringSubmatch 2 p = some ms) :
    storagePath (ms.getD 2 []) = "My-Notes/".toList ++ ms.getD 2 [] ++ ".txt".toList ∧
      '/' ∉ ms.getD 2 [] ∧ '.' ∉ ms.getD 2 [] ∧ ms.getD 2 [] ≠ [] ∧
      Dir (storagePath (ms.getD 2 [])) = Clean NotePath ∧
      underNotes (storagePath (ms.getD 2 [])) = true := by
  obtain ⟨t, hv, ht⟩ := find_validPath_some p ms h
  have hms : ms.getD 2 [] = t := by
    rcases ht with ht | ht
    · rw [ht, find_validPath_edit t hv] at h
      rw [← Option.some.inj h]; rfl
    · rw [ht, find_validPath_view t hv] at h
      rw [← Option.some.inj h]; rfl
  have hs := validTitle_noSlash t hv
  rw [hms, storagePath_eq t hs]
  refine ⟨rfl, hs, validTitle_noDot t hv, hv.1, ?_, ?_⟩
  · rw [List.append_assoc, Dir_notes _ (isElem_txt t hs).2.1, Clean_NotePath]
  · rw [List.append_assoc]; simp [underNotes]

/-- C2 at the path `/view/abc123`. -/
theorem validPath_storagePath_witness :
    validPath.FindStringSubmatch 2 "/view/abc123".toList =
        some ["/view/abc123".toList, "view".toList, "abc123".toList] ∧
      storagePath "abc123".toList = "My-Notes/abc123.txt".toList ∧
      Dir (storagePath "abc123".toList) = Clean NotePath :=
  ⟨by decide,
   (validPath_storagePath "/view/abc123".toList
      ["/view/abc123".toList, "view".toList, "abc123".toList] (by decide)).1,
   (validPath_storagePath "/view/abc123".toList
      ["/view/abc123".toList, "view".toList, "abc123".toList] (by decide)).2.2.2.2.1⟩

/-- C3: when `save` of the page with title `T` and body `B` succeeds, `loadPage T` returns
the page with title `T` and body exactly `B`; and after a further successful `save` of the
same title with a body `B2`, it returns `B2`. -/
theorem save_loadPage (T : Str) (B : Bytes) (w : World)
    (h : (Page.save ⟨T, B⟩ w).1 = .ok ()) :
    (loadPage T (Page.save ⟨T, B⟩ w).2).1 = .ok ⟨T, B⟩ ∧
      ∀ B2 : Bytes, (Page.save ⟨T, B2⟩ (Page.save ⟨T, B⟩ w).2).1 = .ok () →
        (loadPage T (Page.save ⟨T, B2⟩ (Page.save ⟨T, B⟩ w).2).2).1 = .ok ⟨T, B2⟩ := by
  have key : ∀ (B1 : Bytes) (w1 : World), (Page.save ⟨T, B1⟩ w1).1 = .ok () →
      (loadPage T (Page.save ⟨T, B1⟩ w1).2).1 = .ok ⟨T, B1⟩ := by
    intro B1 w1 h1
    rw [loadPage_eq, Page.save_ok ⟨T, B1⟩ w1 h1]
  exact ⟨key B w h, fun B2 h2 => key B2 _ h2⟩

/-- C3 on the empty store: saving `abc` with the body `hi` and then with the body `yo`. -/
theorem save_loadPage_witness :
    (Page.save ⟨"abc".toList, [104, 105]⟩ ⟨emptyFS, []⟩).1 = .ok () ∧
      (loadPage "abc".toList (Page.save ⟨"abc".toList, [104, 105]⟩ ⟨emptyFS, []⟩).2).1 =
        .ok ⟨"abc".toList, [104, 105]⟩ ∧
      (loadPage "abc".toList (Page.save ⟨"abc".toList, [121, 111]⟩
        (Page.save ⟨"abc".toList, [104, 105]⟩ ⟨emptyFS, []⟩).2).2).1 =
        .ok ⟨"abc".toList, [121, 111]⟩ :=
  ⟨rfl, (save_loadPage "abc".toList [104, 105] ⟨emptyFS, []⟩ rfl).1,
    (save_loadPage "abc".toList [104, 105] ⟨emptyFS, []⟩ rfl).2 [121, 111] rfl⟩

/-- C4: a request to `/save/T` through the handler registered for `/save/` is answered
404 and the world is left as it was: `validPath` has no `save` alternative, so
`saveHandler` is never reached and nothing is saved. -/
theorem saveRoute_notFound (method T : Str) (form : List (Str × Str)) (w : World) :
    saveRoute ⟨method, "/save/".toList ++ T, form⟩ w = (NotFound, w) := by
  have h : validPath.FindStringSubmatch 2 ("/save/".toList ++ T) = none := by
    apply find_validPath_none
    rintro ⟨t, _, ht | ht⟩
    · simp at ht
    · simp at ht
  simp only [saveRoute, makeHandler, h]

/-- C5: on a POST the add handler answers 400 and leaves the world as it was, `save` not
called, when the title is empty after trimming; otherwise it ends in the world `save` of
the page with the trimmed title and the body leaves, does not answer 400, and answers with
a 302 redirect to `/view/` and the trimmed title when that `save` succeeds. -/
theorem addHandler_post (templates : Templates) (r : Request) (w : World)
    (hm : r.Method = "POST".toList) :
    (TrimSpace (r.FormValue "title".toList) = [] →
        addHandler templates r w = (.error "Title is required".toList StatusBadRequest, w)) ∧
    (TrimSpace (r.FormValue "title".toList) ≠ [] →
        (addHandler templates r w).2 =
          (Page.save ⟨TrimSpace (r.FormValue "title".toList),
            toBytes (r.FormValue "body".toList)⟩ w).2 ∧
        (addHandler templates r w).1.status ≠ StatusBadRequest ∧
        ((Page.save ⟨TrimSpace (r.FormValue "title".toList),
            toBytes (r.FormValue "body".toList)⟩ w).1 = .ok () →
          (addHandler templates r w).1 =
            .redirect ("/view/".toList ++ TrimSpace (r.FormValue "title".toList))
              StatusFound)) := by
  have hg : ¬ r.Method = "GET".toList := by rw [hm]; decide
  constructor
  · intro ht
    simp only [addHandler, if_neg hg, if_pos hm, if_pos ht]
  · intro ht
    simp only [addHandler, if_neg hg, if_pos hm, if_neg ht]
    cases hs : Page.save ⟨TrimSpace (r.FormValue "title".toList),
        toBytes (r.FormValue "body".toList)⟩ w with
    | mk res w1 =>
      cases res with
      | error e =>
        refine ⟨rfl, ?_, fun h => by simp at h⟩
        show StatusInternalServerError ≠ StatusBadRequest
        decide
      | ok u =>
        refine ⟨rfl, ?_, fun _ => rfl⟩
        show StatusFound ≠ StatusBadRequest
        decide

/-- C5 on the title of three spaces: the answer is 400 and the world, with no file in it,
is left as it was. -/
theorem addHandler_post_witness :
    addHandler (fun _ _ => none)
        ⟨"POST".toList, "/add".toList, [("title".toList, "   ".toList), ("body".toList, "x".toList)]⟩
        ⟨emptyFS, []⟩ =
      (.error "Title is required".toList 400, ⟨emptyFS, []⟩) :=
  (addHandler_post (fun _ _ => none)
    ⟨"POST".toList, "/add".toList, [("title".toList, "   ".toList), ("body".toList, "x".toList)]⟩
    ⟨emptyFS, []⟩ rfl).1 (by decide)

/-- C6: when `loadPage` fails, whatever the cause, the view handler answers with a 302
redirect to `/edit/` and the title, and the file system is left as it was; when `loadPage`
succeeds it renders the `view` template with the loaded page. -/
theorem viewHandler_loadPage (templates : Templates) (r : Request) (T : Str) (w : World) :
    (∀ e, (loadPage T w).1 = .error e →
        (viewHandler templates r T w).1 = .redirect ("/edit/".toList ++ T) StatusFound ∧
        (viewHandler templates r T w).2.fs = w.fs) ∧
    (∀ page, (loadPage T w).1 = .ok page →
        (viewHandler templates r T w).1 = renderTemplate templates "view".toList (.page page) ∧
        (viewHandler templates r T w).2.fs = w.fs) := by
  have hfs := loadPage_fs T w
  simp only [viewHandler]
  cases hl : loadPage T w with
  | mk res w1 =>
    rw [hl] at hfs
    cases res with
    | error e0 => exact ⟨fun _ _ => ⟨rfl, hfs⟩, fun _ h => by simp at h⟩
    | ok p0 =>
      refine ⟨fun _ h => by simp at h, fun page h => ?_⟩
      have hp : p0 = page := by simpa using h
      exact ⟨by rw [hp], hfs⟩

/-- C6 on the empty store: the title `nonexistent` is redirected to `/edit/nonexistent`. -/
theorem viewHandler_loadPage_witness :
    (loadPage "nonexistent".toList ⟨emptyFS, []⟩).1 =
        .error (.getPage "nonexistent".toList .notExist) ∧
      (viewHandler (fun _ _ => none) ⟨"GET".toList, "/view/nonexistent".toList, []⟩
        "nonexistent".toList ⟨emptyFS, []⟩).1 = .redirect "/edit/nonexistent".toList 302 :=
  ⟨rfl, ((viewHandler_loadPage (fun _ _ => none)
      ⟨"GET".toList, "/view/nonexistent".toList, []⟩ "nonexistent".toList ⟨emptyFS, []⟩).1
      (.getPage "nonexistent".toList .notExist) rfl).1⟩

/-- C7: the pages `listHandler` builds are, in the order of the directory entries, one stub
with an empty body for each entry that is not a directory and whose name is `t` followed by
`.txt`, with the title `t`; every other entry gives nothing; and when the notes directory
cannot be read, the `list` template is rendered with no pages. -/
theorem listHandler_pages (templates : Templates) (r : Request) (w : World)
    (files : List DirEntry) :
    listPages files = files.filterMap stubOf ∧
      (∀ (e : DirEntry) (t : Str), e.IsDir = false → e.Name = t ++ ".txt".toList →
        stubOf e = some ⟨t, []⟩) ∧
      (∀ e : DirEntry, (e.IsDir = true ∨ ¬ ∃ t, e.Name = t ++ ".txt".toList) → stubOf e = none) ∧
      (listHandler templates (.ok files) r w).1 =
        renderTemplate templates "list".toList
          (.info ⟨"List  Pages".toList, files.filterMap stubOf⟩) ∧
      ∀ err, (listHandler templates (.error err) r w).1 =
        renderTemplate templates "list".toList (.info ⟨"List  Pages".toList, []⟩) := by
  have hl : ∀ fs : List DirEntry, listPages fs = fs.filterMap stubOf := by
    intro fs
    rw [listPages, foldl_listPages, List.nil_append]
  refine ⟨hl files, ?_, ?_, ?_, ?_⟩
  · intro e t hd hn
    have hs : ".txt".toList <:+ e.Name := ⟨t, hn.symm⟩
    rw [stubOf, if_pos ⟨hd, hs⟩, hn]
    have := take_txt t
    simp only [List.length_append] at this ⊢
    rw [this]
  · intro e h
    rw [stubOf, if_neg]
    rintro ⟨hd, t, ht⟩
    rcases h with h | h
    · rw [hd] at h; exact absurd h (by decide)
    · exact h ⟨t, ht.symm⟩
  · simp only [listHandler, hl]
  · intro err
    simp only [listHandler, hl, List.filterMap_nil]

/-- The listing scenario of the specification: `a.txt`, `b.txt` and `notes.log` give stubs
for exactly `a` and `b`, and a directory is skipped. -/
theorem listPages_example :
    listPages [⟨"a.txt".toList, false⟩, ⟨"b.txt".toList, false⟩, ⟨"notes.log".toList, false⟩,
        ⟨"d.txt".toList, true⟩] =
      [⟨"a".toList, []⟩, ⟨"b".toList, []⟩] := by decide

/-- The node of a name depends on the file system at the cleaned name only. -/
theorem stat_congr (fs1 fs2 : FS) (name : Str) (h : fs1 (Clean name) = fs2 (Clean name)) :
    stat fs1 name = stat fs2 name := by
  simp only [stat, h]

/-- The storage path of a title without separator is clean. -/
theorem Clean_storagePath (t : Str) (h : '/' ∉ t) : Clean (storagePath t) = storagePath t := by
  rw [storagePath_eq t h, List.append_assoc, Clean_notes2 _ (isElem_txt t h)]

/-- The storage path of a title without separator is not the notes directory. -/
theorem storagePath_ne_notesKey (t : Str) (h : '/' ∉ t) : storagePath t ≠ notesKey := by
  rw [storagePath_eq t h]
  intro he
  have := congrArg List.length he
  simp [notesKey] at this

/-- Titles without separator with the same storage path are equal. -/
theorem storagePath_inj (t1 t2 : Str) (h1 : '/' ∉ t1) (h2 : '/' ∉ t2)
    (h : storagePath t1 = storagePath t2) : t1 = t2 := by
  rw [storagePath_eq t1 h1, storagePath_eq t2 h2] at h
  exact List.append_cancel_left (List.append_cancel_right h)

/-- The store call of `loadPage`: `ReadFile` on the storage path of the title. -/
theorem loadPage_ops (title : Str) (w : World) :
    (loadPage title w).2.ops = w.ops ++ [.readFile (storagePath title)] := by
  simp only [loadPage, ReadFile, storagePath]
  cases h : stat w.fs (Join [NotePath, title ++ ".txt".toList]) with
  | some n => cases n <;> rfl
  | none => rfl

/-- The store call `WriteFile` records. -/
theorem WriteFile_ops (name : Str) (data : Bytes) (w : World) :
    (WriteFile name data w).2.ops = w.ops ++ [.writeFile name data] := by
  simp only [WriteFile]
  cases h1 : stat w.fs name with
  | some n =>
    cases n with
    | dir => rfl
    | file d =>
      cases h2 : stat w.fs (Dir (Clean name)) with
      | some n2 => cases n2 <;> rfl
      | none => rfl
  | none =>
    cases h2 : stat w.fs (Dir (Clean name)) with
    | some n2 => cases n2 <;> rfl
    | none => rfl

/-- The store call `MkdirAll` records. -/
theorem MkdirAll_ops (path : Str) (w : World) :
    (MkdirAll path w).2.ops = w.ops ++ [.mkdirAll path] := by
  simp only [MkdirAll]
  cases mkdirAllFS (path.length + 1) w.fs path <;> rfl

/-- The store calls of `save`: `MkdirAll` on the notes directory and, when that succeeds,
`WriteFile` on the storage path of the title. -/
theorem Page.save_ops (p : Page) (w : World) :
    (p.save w).2.ops = w.ops ++ [.mkdirAll NotePath] ∨
      (p.save w).2.ops = w.ops ++ [.mkdirAll NotePath, .writeFile (storagePath p.Title) p.Body] := by
  simp only [Page.save]
  have hm := MkdirAll_ops NotePath w
  cases hmk : MkdirAll NotePath w with
  | mk res w1 =>
    rw [hmk] at hm
    cases res with
    | error e => exact Or.inl hm
    | ok u =>
      right
      have hw := WriteFile_ops (Join [NotePath, p.Title ++ ".txt".toList]) p.Body w1
      cases hwf : WriteFile (Join [NotePath, p.Title ++ ".txt".toList]) p.Body w1 with
      | mk res2 w2 =>
        rw [hwf] at hw
        have : w2.ops = w.ops ++ [.mkdirAll NotePath, .writeFile (storagePath p.Title) p.Body] := by
          rw [hw, hm, storagePath]; simp
        cases res2 <;> simp only [hwf] <;> exact this

/-- In a world where the notes directory is absent or a directory, and the storage path of
a title without separator is not a directory, `save` succeeds. -/
theorem Page.save_succeeds (T : Str) (B : Bytes) (w : World) (hT : '/' ∉ T)
    (h1 : ∀ d, w.fs notesKey ≠ some (.file d)) (h2 : w.fs (storagePath T) ≠ some .dir) :
    (Page.save ⟨T, B⟩ w).1 = .ok () := by
  have hk := Clean_storagePath T hT
  have hne := storagePath_ne_notesKey T hT
  have hroot : ¬ (storagePath T = ".".toList ∨ storagePath T = "/".toList) := by
    rw [storagePath_eq T hT]
    simp
  have hdir : Dir (storagePath T) = notesKey := by
    rw [storagePath_eq T hT, List.append_assoc, Dir_notes _ (isElem_txt T hT).2.1]
  have hstat : ∀ fs : FS, stat fs (storagePath T) = fs (storagePath T) := by
    intro fs
    simp only [stat, hk, if_neg hroot]
  have hstat2 : ∀ fs : FS, stat fs notesKey = fs notesKey := by
    intro fs
    have e : Clean notesKey = notesKey := by decide
    simp only [stat, e]
    rw [if_neg (by decide)]
  have key : ∀ w1 : World, w1.fs notesKey = some .dir → w1.fs (storagePath T) ≠ some .dir →
      (WriteFile (storagePath T) B w1).1 = .ok () := by
    intro w1 hd hn
    simp only [WriteFile, hstat, hk, hdir, hstat2, hd]
  have hsave : ∀ w1 : World, MkdirAll NotePath w = (.ok (), w1) →
      w1.fs notesKey = some .dir → w1.fs (storagePath T) ≠ some .dir →
      (Page.save ⟨T, B⟩ w).1 = .ok () := by
    intro w1 hm hd hn
    have hw := key w1 hd hn
    simp only [Page.save, hm]
    rw [storagePath] at hw
    cases hwf : WriteFile (Join [NotePath, T ++ ".txt".toList]) B w1 with
    | mk res2 w2 =>
      rw [hwf] at hw
      simp only at hw
      rw [hw]
  have hm := MkdirAll_NotePath w
  cases hn : w.fs notesKey with
  | none =>
    rw [hn] at hm
    refine hsave _ hm ?_ ?_
    · simp [FS.set]
    · simp only [FS.set, if_neg hne]; exact h2
  | some n =>
    cases n with
    | file d => exact absurd hn (h1 d)
    | dir =>
      rw [hn] at hm
      exact hsave _ hm hn h2

/-- C8, as stated, fails: the distinct non-empty titles `a` and `./a` have the same
storage path, because `filepath.Join` cleans the joined path. -/
theorem storagePath_collision :
    "a".toList ≠ [] ∧ "./a".toList ≠ [] ∧ "a".toList ≠ "./a".toList ∧
      storagePath "a".toList = storagePath "./a".toList := by decide

/-- C8, amended: `loadPage` reads and `save` writes the file at `storagePath` of the
title, and on titles without a path separator, so on every title the validator accepts,
two titles have the same storage path exactly when they are equal. -/
theorem storagePath_injective (T1 T2 : Str) (h1 : '/' ∉ T1) (h2 : '/' ∉ T2) :
    (storagePath T1 = storagePath T2 ↔ T1 = T2) ∧
      (∀ w : World, (loadPage T1 w).2.ops = w.ops ++ [.readFile (storagePath T1)]) ∧
      (∀ (B : Bytes) (w : World),
        (Page.save ⟨T1, B⟩ w).2.ops = w.ops ++ [.mkdirAll NotePath] ∨
        (Page.save ⟨T1, B⟩ w).2.ops =
          w.ops ++ [.mkdirAll NotePath, .writeFile (storagePath T1) B]) :=
  ⟨⟨storagePath_inj T1 T2 h1 h2, fun h => by rw [h]⟩, loadPage_ops T1,
    fun B w => Page.save_ops ⟨T1, B⟩ w⟩

/-- C8, amended, on the titles `a` and `b`. -/
theorem storagePath_injective_witness :
    '/' ∉ "a".toList ∧ '/' ∉ "b".toList ∧
      (storagePath "a".toList = storagePath "b".toList ↔ "a".toList = "b".toList) :=
  ⟨by decide, by decide,
    (storagePath_injective "a".toList "b".toList (by decide) (by decide)).1⟩

/-- C9: for two distinct valid titles, `save` of a page with the first leaves what
`loadPage` returns for the second, page or error, as it was. -/
theorem save_frame (T T' : Str) (B : Bytes) (w : World) (hT : validTitle T)
    (hT' : validTitle T') (hne : T ≠ T') :
    (loadPage T' (Page.save ⟨T, B⟩ w).2).1 = (loadPage T' w).1 := by
  have hs := validTitle_noSlash T hT
  have hs' := validTitle_noSlash T' hT'
  rw [loadPage_eq, loadPage_eq]
  have hfs : (Page.save ⟨T, B⟩ w).2.fs (Clean (storagePath T')) = w.fs (Clean (storagePath T')) := by
    apply Page.save_fs
    · rw [Clean_storagePath T' hs']; exact storagePath_ne_notesKey T' hs'
    · rw [Clean_storagePath T' hs', Clean_storagePath T hs]
      intro h
      exact hne (storagePath_inj T' T hs' hs h).symm
  rw [stat_congr _ _ _ hfs]

/-- C9 on a store that holds the page `b`: saving the page `a` leaves `loadPage` of `b`
as it was. -/
theorem save_frame_witness :
    validTitle "a".toList ∧ validTitle "b".toList ∧ "a".toList ≠ "b".toList ∧
      (loadPage "b".toList (Page.save ⟨"a".toList, [1]⟩
        (Page.save ⟨"b".toList, [2]⟩ ⟨emptyFS, []⟩).2).2).1 =
      (loadPage "b".toList (Page.save ⟨"b".toList, [2]⟩ ⟨emptyFS, []⟩).2).1 :=
  ⟨⟨by decide, by decide⟩, ⟨by decide, by decide⟩, by decide,
    save_frame "a".toList "b".toList [1] _ ⟨by decide, by decide⟩ ⟨by decide, by decide⟩
      (by decide)⟩

/-- C10: the add handler accepts the title `../x`, which is not empty after trimming, and
`save` then writes the file `x.txt` in the working directory: the storage path of that
title is not under the notes directory `My-Notes`. -/
theorem addHandler_escapes (templates : Templates) :
    TrimSpace "../x".toList = "../x".toList ∧ TrimSpace "../x".toList ≠ [] ∧
      storagePath "../x".toList = "x.txt".toList ∧
      underNotes (storagePath "../x".toList) = false ∧
      Dir (storagePath "../x".toList) ≠ Clean NotePath ∧
      (addHandler templates
        ⟨"POST".toList, "/add".toList,
          [("title".toList, "../x".toList), ("body".toList, "hi".toList)]⟩
        ⟨emptyFS, []⟩).1 = .redirect "/view/../x".toList 302 ∧
      (addHandler templates
        ⟨"POST".toList, "/add".toList,
          [("title".toList, "../x".toList), ("body".toList, "hi".toList)]⟩
        ⟨emptyFS, []⟩).2.ops = [.mkdirAll NotePath, .writeFile "x.txt".toList [104, 105]] ∧
      (addHandler templates
        ⟨"POST".toList, "/add".toList,
          [("title".toList, "../x".toList), ("body".toList, "hi".toList)]⟩
        ⟨emptyFS, []⟩).2.fs "x.txt".toList = some (.file [104, 105]) :=
  ⟨by decide, by decide, by decide, by decide, by decide, rfl, rfl, rfl⟩

end GoTodo
